import Mathlib

/-!
Hand sanitizer dispenser: the control loop of `hand_sanitizer_dispenser.cpp`.

Shallow embedding of the sense / decide / actuate loop of `main`:

* the distance computation of lines 97-98 (`int` subtraction, division by the `double`
  constant `148.0`, conversion of the quotient back to `int`),
* the four read-modify-write accesses to `GPIOE->ODR` of lines 102-110,
* the servo sweep of lines 115-131.

Machine integers are mathematical integers with explicit range checks, `double` values are the
rationals they denote, and rounding follows IEEE 754 binary64 round-to-nearest-even.  Everything
the program does to the outside world is recorded as a list of `Event`s, in program order.
-/

namespace Dispenser

/-! ## Machine arithmetic -/

/-- Smallest value of the 32-bit `int` type of the target. -/
def INT_MIN : Int := -2147483648

/-- Largest value of the 32-bit `int` type of the target. -/
def INT_MAX : Int := 2147483647

/-- Subtraction of two `int` values (line 97, `UDS_Timer.read_us()-overhead_timer_delay`).
Signed overflow has no defined result, which is `none` here. -/
def subInt (a b : Int) : Option Int :=
  if INT_MIN ≤ a - b ∧ a - b ≤ INT_MAX then some (a - b) else none

/-- Nearest integer to a rational, ties going to the even neighbour. -/
def roundHalfEven (x : ℚ) : Int :=
  let f := ⌊x⌋
  let r := x - f
  if r < 1 / 2 then f
  else if 1 / 2 < r then f + 1
  else if f % 2 = 0 then f else f + 1

/-- Value of a real number as an IEEE 754 binary64 (`double`) under round-to-nearest-even:
53 significant bits, smallest normal exponent `-1022` (below it the spacing stays that of the
subnormals), and no finite result from `2 ^ 1024` on, which is `none` here. -/
def roundBinary64 (q : ℚ) : Option ℚ :=
  if q = 0 then some 0
  else
    let e : Int := max (Int.log 2 |q|) (-1022)
    let ulp : ℚ := (2 : ℚ) ^ (e - 52)
    let v : ℚ := (roundHalfEven (q / ulp) : ℚ) * ulp
    if |v| < (2 : ℚ) ^ (1024 : Nat) then some v else none

/-- Division of two `double` values, rounded once.  Division by zero gives no finite value. -/
def divDouble (a b : ℚ) : Option ℚ :=
  if b = 0 then none else roundBinary64 (a / b)

/-- Conversion of a `double` to `int`, as in the assignment to `distance_measured` on line 98:
the fractional part is discarded (truncation toward zero); a value that does not fit is `none`. -/
def doubleToInt (v : ℚ) : Option Int :=
  let t : Int := if 0 ≤ v then ⌊v⌋ else ⌈v⌉
  if INT_MIN ≤ t ∧ t ≤ INT_MAX then some t else none

/-- Lines 97-98: the value stored in `distance_measured` for the timer reading `raw` and the
startup offset `overhead_timer_delay`:
`int difference = UDS_Timer.read_us()-overhead_timer_delay; distance_measured = difference/148.0;`
The `int` difference is converted to `double`, divided by `148.0`, and the quotient is converted
back to `int`. -/
def distanceSample (raw overhead_timer_delay : Int) : Option Int :=
  match subInt raw overhead_timer_delay with
  | none => none
  | some difference =>
    match roundBinary64 (difference : ℚ) with
    | none => none
    | some dividend =>
      match divDouble dividend 148 with
      | none => none
      | some quotient => doubleToInt quotient

/-! ## Port E output register -/

/-- Conversion of an `int` operand to the 32-bit unsigned type of `GPIOE->ODR`. -/
def toUInt32 (z : Int) : Nat := (z % 4294967296).toNat

/-- Register update `ODR |= mask` with an `int` mask. -/
def orAssign (odr : Nat) (mask : Int) : Nat := (odr ||| toUInt32 mask) % 4294967296

/-- Register update `ODR &= mask` with an `int` mask. -/
def andAssign (odr : Nat) (mask : Int) : Nat := (odr &&& toUInt32 mask) % 4294967296

/-- Red (idle) indicator: bit 4 of the register, mask `0x10` (PE4). -/
def redOn (odr : Nat) : Bool := odr.testBit 4

/-- Green (active) indicator: bit 2 of the register, mask `0x4` (PE2). -/
def greenOn (odr : Nat) : Bool := odr.testBit 2

/-! ## Observable actions -/

/-- One action of the program on its peripherals. -/
inductive Event where
  | trigger (level : Nat)
  | timerReset
  | timerStart
  | timerStop
  | wait_us (us : Nat)
  | odrWrite (value : Nat)
  | printf (distance : Int)
  | period_ms (ms : Nat)
  | pulsewidth_us (us : Int)
  deriving DecidableEq

/-- Lines 119-122: `for(int i = 2500; i>=500; i = i - 2000)` with body
`myServoMotor.pulsewidth_us(i); wait_us(500000);`, started at counter value `i`. -/
def forwardSweep (i : Int) : List Event :=
  if 500 ≤ i then
    Event.pulsewidth_us i :: Event.wait_us 500000 :: forwardSweep (i - 2000)
  else []
termination_by (i - 499).toNat
decreasing_by omega

/-- Lines 126-129: `for(int i = 500; i<=2500; i = i + 2000)` with body
`myServoMotor.pulsewidth_us(i); wait_us(500000);`, started at counter value `i`. -/
def reverseSweep (i : Int) : List Event :=
  if i ≤ 2500 then
    Event.pulsewidth_us i :: Event.wait_us 500000 :: reverseSweep (i + 2000)
  else []
termination_by (2501 - i).toNat
decreasing_by omega

/-- Lines 115-131: the servo part of the active branch: `myServoMotor.period_ms(20)`, the two
`for` loops, and the final `wait_us(1000000)`. -/
def servoSweep : List Event :=
  Event.period_ms 20 :: (forwardSweep 2500 ++ reverseSweep 500 ++ [Event.wait_us 1000000])

/-! ## The control loop -/

/-- Variables that live across loop iterations: the port E output register and the two globals
of lines 49-50. -/
structure State where
  odr : Nat
  distance_measured : Int
  overhead_timer_delay : Int
  deriving DecidableEq

/-- Lines 84-94: the trigger pulse and the timing of the echo pulse.  The two polling loops on
the echo pin are taken to end; the timer reading they lead to is the input `raw` of
`loopBody`. -/
def pingEvents : List Event :=
  [Event.trigger 1, Event.timerReset, Event.wait_us 10, Event.trigger 0,
   Event.timerStart, Event.timerStop]

/-- Lines 84-132: one iteration of `while(true)`, for the timer reading `raw` returned by
`UDS_Timer.read_us()` on line 97.  The result is the state after the iteration and the actions
performed, in order. -/
def loopBody (s : State) (raw : Int) : Option (State × List Event) :=
  match distanceSample raw s.overhead_timer_delay with
  | none => none
  | some d =>
    let odr1 := orAssign s.odr 0x10
    let odr2 := andAssign odr1 (~~~ 0x4)
    if d ≤ 3 then
      let odr3 := andAssign odr2 (~~~ 0x10)
      let odr4 := orAssign odr3 0x4
      some ({ s with odr := odr4, distance_measured := d },
        pingEvents ++ [Event.odrWrite odr1, Event.odrWrite odr2, Event.printf d,
          Event.odrWrite odr3, Event.odrWrite odr4] ++ servoSweep)
    else
      some ({ s with odr := odr2, distance_measured := d },
        pingEvents ++ [Event.odrWrite odr1, Event.odrWrite odr2])

/-- The first iterations of `while(true)`, one per timer reading of the list. -/
def runLoop (s : State) : List Int → Option (State × List Event)
  | [] => some (s, [])
  | raw :: rest =>
    match loopBody s raw with
    | none => none
    | some (s1, t1) =>
      match runLoop s1 rest with
      | none => none
      | some (s2, t2) => some (s2, t1 ++ t2)

/-- Values stored to `GPIOE->ODR`, in order, one per write. -/
def odrValues : List Event → List Nat
  | [] => []
  | Event.odrWrite v :: rest => v :: odrValues rest
  | _ :: rest => odrValues rest

/-- Commands to the servo: a period or a pulse-width write. -/
def isServoCommand : Event → Bool
  | Event.period_ms _ => true
  | Event.pulsewidth_us _ => true
  | _ => false

/-- Durations of the `wait_us` calls, in order. -/
def waits : List Event → List Nat
  | [] => []
  | Event.wait_us n :: rest => n :: waits rest
  | _ :: rest => waits rest

/-- Pulse widths commanded to the servo, in order. -/
def pulseWidths : List Event → List Int
  | [] => []
  | Event.pulsewidth_us w :: rest => w :: pulseWidths rest
  | _ :: rest => pulseWidths rest

/-! ## Rounding lemmas -/

/-- Rounding leaves an integer unchanged. -/
theorem roundHalfEven_intCast (n : Int) : roundHalfEven (n : ℚ) = n := by
  simp [roundHalfEven]

/-- Rounding to the nearest integer moves a value by at most one half. -/
theorem roundHalfEven_error (x : ℚ) : |(roundHalfEven x : ℚ) - x| ≤ 1 / 2 := by
  have h1 : (⌊x⌋ : ℚ) ≤ x := Int.floor_le x
  have h2 : x < (⌊x⌋ : ℚ) + 1 := Int.lt_floor_add_one x
  unfold roundHalfEven
  simp only []
  rw [abs_le]
  split_ifs with ha hb hc
  · constructor <;> linarith
  · push_cast; constructor <;> linarith
  · constructor <;> linarith
  · push_cast; constructor <;> linarith

/-- The binary64 exponent of a value below `2 ^ (n + 1)` is at most `n`. -/
theorem binary64_exponent_le {q : ℚ} (hq : q ≠ 0) {n : Int} (hn : -1022 ≤ n)
    (h : |q| < (2 : ℚ) ^ (n + 1)) : max (Int.log 2 |q|) (-1022) ≤ n := by
  have hpos : 0 < |q| := abs_pos.mpr hq
  have := (Int.lt_zpow_iff_log_lt (R := ℚ) (b := 2) (by norm_num) (x := n + 1) hpos).1
    (by exact_mod_cast h)
  exact max_le (by omega) hn

/-- A non-zero value below `2 ^ 24` in magnitude has a binary64 value within `2 ^ (-30)`. -/
theorem roundBinary64_error {q : ℚ} (hq : q ≠ 0) (h : |q| < (2 : ℚ) ^ (24 : Int)) :
    ∃ v, roundBinary64 q = some v ∧ |v - q| ≤ 1 / 2 ^ 30 := by
  have he : max (Int.log 2 |q|) (-1022) ≤ 23 := binary64_exponent_le hq (by norm_num) h
  set e := max (Int.log 2 |q|) (-1022) with hedef
  have hulp_pos : (0 : ℚ) < (2 : ℚ) ^ (e - 52) := zpow_pos (by norm_num) _
  have hulp_le : (2 : ℚ) ^ (e - 52) ≤ (2 : ℚ) ^ (-29 : Int) :=
    zpow_le_zpow_right₀ (by norm_num) (by omega)
  have herr := roundHalfEven_error (q / (2 : ℚ) ^ (e - 52))
  have hv : |(roundHalfEven (q / (2 : ℚ) ^ (e - 52)) : ℚ) * (2 : ℚ) ^ (e - 52) - q|
      ≤ 1 / 2 ^ 30 := by
    have hq' : q = q / (2 : ℚ) ^ (e - 52) * (2 : ℚ) ^ (e - 52) := by
      field_simp
    calc |(roundHalfEven (q / (2 : ℚ) ^ (e - 52)) : ℚ) * (2 : ℚ) ^ (e - 52) - q|
        = |((roundHalfEven (q / (2 : ℚ) ^ (e - 52)) : ℚ) - q / (2 : ℚ) ^ (e - 52))
            * (2 : ℚ) ^ (e - 52)| := by
          congr 1
          rw [sub_mul, ← hq']
      _ = |(roundHalfEven (q / (2 : ℚ) ^ (e - 52)) : ℚ) - q / (2 : ℚ) ^ (e - 52)|
            * (2 : ℚ) ^ (e - 52) := by
          rw [abs_mul, abs_of_pos hulp_pos]
      _ ≤ 1 / 2 * (2 : ℚ) ^ (-29 : Int) :=
          mul_le_mul herr hulp_le hulp_pos.le (by norm_num)
      _ = 1 / 2 ^ 30 := by norm_num
  refine ⟨(roundHalfEven (q / (2 : ℚ) ^ (e - 52)) : ℚ) * (2 : ℚ) ^ (e - 52), ?_, hv⟩
  have hbig : |(roundHalfEven (q / (2 : ℚ) ^ (e - 52)) : ℚ) * (2 : ℚ) ^ (e - 52)|
      < (2 : ℚ) ^ (1024 : Nat) := by
    have h24 : |q| < 16777216 := by
      have : (2 : ℚ) ^ (24 : Int) = 16777216 := by norm_num
      linarith
    have hsub := abs_sub_abs_le_abs_sub
      ((roundHalfEven (q / (2 : ℚ) ^ (e - 52)) : ℚ) * (2 : ℚ) ^ (e - 52)) q
    have hsmall : (1 : ℚ) / 2 ^ 30 ≤ 1 := by norm_num
    have hlarge : (33554432 : ℚ) ≤ (2 : ℚ) ^ (1024 : Nat) := by
      have : (2 : ℚ) ^ (25 : Nat) ≤ (2 : ℚ) ^ (1024 : Nat) :=
        pow_le_pow_right₀ (by norm_num) (by norm_num)
      norm_num at this ⊢
    linarith
  unfold roundBinary64
  simp only [hq, if_false, ← hedef]
  rw [if_pos hbig]

/-- Integers below `2 ^ 53` in magnitude are binary64 values. -/
theorem roundBinary64_intCast {n : Int} (h : |n| < 2 ^ 53) : roundBinary64 (n : ℚ) = some (n : ℚ) := by
  by_cases hn : n = 0
  · subst hn; simp [roundBinary64]
  have hq : (n : ℚ) ≠ 0 := by exact_mod_cast hn
  have hpos : (0 : ℚ) < |(n : ℚ)| := abs_pos.mpr hq
  have hone : (1 : ℚ) ≤ |(n : ℚ)| := by
    have : (1 : Int) ≤ |n| := Int.one_le_abs hn
    exact_mod_cast this
  have hlt : |(n : ℚ)| < (2 : ℚ) ^ ((52 : Int) + 1) := by
    have : ((|n| : Int) : ℚ) < ((2 ^ 53 : Int) : ℚ) := by exact_mod_cast h
    push_cast at this
    norm_num
    exact this
  have he52 : max (Int.log 2 |(n : ℚ)|) (-1022) ≤ 52 := binary64_exponent_le hq (by norm_num) hlt
  have he0 : 0 ≤ Int.log 2 |(n : ℚ)| := by
    have := (Int.zpow_le_iff_le_log (R := ℚ) (b := 2) (by norm_num) (x := 0) hpos).1
      (by simpa using hone)
    exact this
  have hmax : max (Int.log 2 |(n : ℚ)|) (-1022) = Int.log 2 |(n : ℚ)| := max_eq_left (by omega)
  rw [hmax] at he52
  set e := Int.log 2 |(n : ℚ)| with hedef
  obtain ⟨k, hk⟩ : ∃ k : Nat, 52 - e = (k : Int) := ⟨(52 - e).toNat, by omega⟩
  have hek : e - 52 = -(k : Int) := by omega
  have hdiv : (n : ℚ) / (2 : ℚ) ^ (e - 52) = ((n * 2 ^ k : Int) : ℚ) := by
    rw [hek, zpow_neg, zpow_natCast]
    push_cast
    field_simp
  have hback : ((n * 2 ^ k : Int) : ℚ) * (2 : ℚ) ^ (e - 52) = (n : ℚ) := by
    rw [hek, zpow_neg, zpow_natCast]
    push_cast
    field_simp
  have hbig : |(n : ℚ)| < (2 : ℚ) ^ (1024 : Nat) := by
    have : (2 : ℚ) ^ (53 : Nat) ≤ (2 : ℚ) ^ (1024 : Nat) :=
      pow_le_pow_right₀ (by norm_num) (by norm_num)
    have h' : |(n : ℚ)| < (2 : ℚ) ^ (53 : Nat) := by
      have : (2 : ℚ) ^ ((52 : Int) + 1) = (2 : ℚ) ^ (53 : Nat) := by norm_num
      rw [← this]; exact hlt
    linarith
  unfold roundBinary64
  simp only [hq, if_false, hmax, ← hedef]
  rw [hdiv, roundHalfEven_intCast, hback, if_pos hbig]

/-- Converting an integer-valued `double` in the `int` range gives that integer. -/
theorem doubleToInt_intCast {t : Int} (h1 : INT_MIN ≤ t) (h2 : t ≤ INT_MAX) :
    doubleToInt (t : ℚ) = some t := by
  simp [doubleToInt, h1, h2]

/-- Truncated division in terms of floor division. -/
theorem tdiv_eq_ite (d b : Int) (hb : 0 ≤ b) :
    Int.tdiv d b = if 0 ≤ d then d / b else -((-d) / b) := by
  split_ifs with h
  · exact Int.tdiv_eq_ediv h hb
  · have h' : 0 ≤ -d := by omega
    rw [← Int.tdiv_eq_ediv h' hb, Int.neg_tdiv, neg_neg]

/-- Dividing an `int` by `148.0` in binary64 and truncating the rounded quotient gives the
truncated integer quotient: the rounding error is far below the distance `1 / 148` of an inexact
quotient to the nearest integer, and exact quotients are binary64 values. -/
theorem divDouble_148_trunc {d : Int} (h1 : INT_MIN ≤ d) (h2 : d ≤ INT_MAX) :
    (divDouble (d : ℚ) 148).bind doubleToInt = some (Int.tdiv d 148) := by
  unfold INT_MIN at h1
  unfold INT_MAX at h2
  have hdm := Int.tdiv_add_tmod d 148
  have hne : (148 : ℚ) ≠ 0 := by norm_num
  simp only [divDouble, hne, if_false]
  by_cases hr : Int.tmod d 148 = 0
  · have hd : d = 148 * Int.tdiv d 148 := by omega
    have hq : (d : ℚ) / 148 = ((Int.tdiv d 148 : Int) : ℚ) := by
      have : (d : ℚ) = 148 * ((Int.tdiv d 148 : Int) : ℚ) := by exact_mod_cast hd
      rw [this]; field_simp
    rw [hq, roundBinary64_intCast (by rw [abs_lt]; constructor <;> omega)]
    simp only [Option.some_bind]
    exact doubleToInt_intCast (by unfold INT_MIN; omega) (by unfold INT_MAX; omega)
  · have hdq : (d : ℚ) = 148 * ((Int.tdiv d 148 : Int) : ℚ) + ((Int.tmod d 148 : Int) : ℚ) := by
      exact_mod_cast hdm.symm
    have hq0 : (d : ℚ) / 148 ≠ 0 := by
      have : d ≠ 0 := by
        rintro rfl
        simp at hr
      have : (d : ℚ) ≠ 0 := by exact_mod_cast this
      exact div_ne_zero this hne
    have habs : |(d : ℚ) / 148| < (2 : ℚ) ^ (24 : Int) := by
      have e1 : ((-2147483648 : Int) : ℚ) ≤ (d : ℚ) := by exact_mod_cast h1
      have e2 : (d : ℚ) ≤ ((2147483647 : Int) : ℚ) := by exact_mod_cast h2
      push_cast at e1 e2
      rw [abs_lt]
      norm_num
      constructor
      · rw [lt_div_iff₀ (by norm_num)]; linarith
      · rw [div_lt_iff₀ (by norm_num)]; linarith
    obtain ⟨v, hv, herr⟩ := roundBinary64_error hq0 habs
    rw [abs_le] at herr
    have hsmall : (1 : ℚ) / 2 ^ 30 < 1 / 148 := by norm_num
    rw [hv]
    simp only [Option.some_bind]
    have ht := tdiv_eq_ite d 148 (by norm_num)
    have hm := Int.tmod_def d 148
    unfold doubleToInt
    simp only []
    rcases lt_or_ge d 0 with hneg | hpos
    · rw [if_neg (not_le.mpr hneg)] at ht
      have hrl : -147 ≤ Int.tmod d 148 := by omega
      have hru : Int.tmod d 148 ≤ -1 := by omega
      have hrl' : (-147 : ℚ) ≤ ((Int.tmod d 148 : Int) : ℚ) := by exact_mod_cast hrl
      have hru' : ((Int.tmod d 148 : Int) : ℚ) ≤ -1 := by exact_mod_cast hru
      have htn : Int.tdiv d 148 ≤ 0 := by omega
      have htn' : ((Int.tdiv d 148 : Int) : ℚ) ≤ 0 := by exact_mod_cast htn
      have hqv : (d : ℚ) / 148 = ((Int.tdiv d 148 : Int) : ℚ) + ((Int.tmod d 148 : Int) : ℚ) / 148 := by
        rw [hdq]; field_simp; ring
      have hv1 : v < ((Int.tdiv d 148 : Int) : ℚ) := by
        have : ((Int.tmod d 148 : Int) : ℚ) / 148 ≤ -1 / 148 := by
          apply div_le_div_of_nonneg_right hru' (by norm_num)
        linarith [herr.2]
      have hv2 : ((Int.tdiv d 148 : Int) : ℚ) - 1 < v := by
        have : (-147 : ℚ) / 148 ≤ ((Int.tmod d 148 : Int) : ℚ) / 148 := by
          apply div_le_div_of_nonneg_right hrl' (by norm_num)
        linarith [herr.1]
      have hvneg : ¬ (0 ≤ v) := by
        intro h0; linarith
      have hceil : ⌈v⌉ = Int.tdiv d 148 := Int.ceil_eq_iff.mpr ⟨hv2, hv1.le⟩
      rw [if_neg hvneg, hceil, if_pos]
      constructor
      · unfold INT_MIN; omega
      · unfold INT_MAX; omega
    · rw [if_pos hpos] at ht
      have hrl : 1 ≤ Int.tmod d 148 := by omega
      have hru : Int.tmod d 148 ≤ 147 := by omega
      have hrl' : (1 : ℚ) ≤ ((Int.tmod d 148 : Int) : ℚ) := by exact_mod_cast hrl
      have hru' : ((Int.tmod d 148 : Int) : ℚ) ≤ 147 := by exact_mod_cast hru
      have htn : 0 ≤ Int.tdiv d 148 := by omega
      have htn' : (0 : ℚ) ≤ ((Int.tdiv d 148 : Int) : ℚ) := by exact_mod_cast htn
      have hqv : (d : ℚ) / 148 = ((Int.tdiv d 148 : Int) : ℚ) + ((Int.tmod d 148 : Int) : ℚ) / 148 := by
        rw [hdq]; field_simp; ring
      have hv1 : ((Int.tdiv d 148 : Int) : ℚ) < v := by
        have : (1 : ℚ) / 148 ≤ ((Int.tmod d 148 : Int) : ℚ) / 148 := by
          apply div_le_div_of_nonneg_right hrl' (by norm_num)
        linarith [herr.1]
      have hv2 : v < ((Int.tdiv d 148 : Int) : ℚ) + 1 := by
        have : ((Int.tmod d 148 : Int) : ℚ) / 148 ≤ 147 / 148 := by
          apply div_le_div_of_nonneg_right hru' (by norm_num)
        linarith [herr.2]
      have hvpos : 0 ≤ v := by linarith
      have hfloor : ⌊v⌋ = Int.tdiv d 148 := Int.floor_eq_iff.mpr ⟨hv1.le, hv2⟩
      rw [if_pos hvpos, hfloor, if_pos]
      constructor
      · unfold INT_MIN; omega
      · unfold INT_MAX; omega

/-- Lines 97-98 store the truncated quotient whenever the subtraction is in range. -/
theorem distanceSample_eq_tdiv {raw offset : Int} (h1 : INT_MIN ≤ raw - offset)
    (h2 : raw - offset ≤ INT_MAX) :
    distanceSample raw offset = some (Int.tdiv (raw - offset) 148) := by
  have hcast : roundBinary64 ((raw - offset : Int) : ℚ) = some ((raw - offset : Int) : ℚ) := by
    apply roundBinary64_intCast
    unfold INT_MIN at h1
    unfold INT_MAX at h2
    rw [abs_lt]; constructor <;> omega
  have := divDouble_148_trunc h1 h2
  have hsub : subInt raw offset = some (raw - offset) := by
    simp only [subInt, h1, h2, and_self, if_true]
  unfold distanceSample
  rw [hsub]
  simp only [hcast]
  cases hq : divDouble ((raw - offset : Int) : ℚ) 148 with
  | none => rw [hq] at this; simp at this
  | some q => rw [hq] at this; simpa using this

/-- Lines 97-98 have no defined result when the subtraction overflows. -/
theorem distanceSample_eq_none {raw offset : Int} (h : ¬ (INT_MIN ≤ raw - offset ∧ raw - offset ≤ INT_MAX)) :
    distanceSample raw offset = none := by
  simp only [distanceSample, subInt, if_neg h]

/-! ## Servo loops -/

/-- The first `for` loop runs its body for `i = 2500` and `i = 500`. -/
theorem forwardSweep_eq : forwardSweep 2500 =
    [Event.pulsewidth_us 2500, Event.wait_us 500000,
     Event.pulsewidth_us 500, Event.wait_us 500000] := by
  rw [forwardSweep, if_pos (by norm_num), forwardSweep, if_pos (by norm_num), forwardSweep,
    if_neg (by norm_num)]
  norm_num

/-- The second `for` loop runs its body for `i = 500` and `i = 2500`. -/
theorem reverseSweep_eq : reverseSweep 500 =
    [Event.pulsewidth_us 500, Event.wait_us 500000,
     Event.pulsewidth_us 2500, Event.wait_us 500000] := by
  rw [reverseSweep, if_pos (by norm_num), reverseSweep, if_pos (by norm_num), reverseSweep,
    if_neg (by norm_num)]
  norm_num

/-- The actions of lines 115-131, in order. -/
theorem servoSweep_eq : servoSweep =
    [Event.period_ms 20,
     Event.pulsewidth_us 2500, Event.wait_us 500000,
     Event.pulsewidth_us 500, Event.wait_us 500000,
     Event.pulsewidth_us 500, Event.wait_us 500000,
     Event.pulsewidth_us 2500, Event.wait_us 500000,
     Event.wait_us 1000000] := by
  simp [servoSweep, forwardSweep_eq, reverseSweep_eq]

/-! ## Register writes, bit by bit -/

/-- The operand `~(0x4)` as a 32-bit unsigned value. -/
theorem mask_not4 : toUInt32 (~~~ 0x4) = (2 ^ 32 - 1) ^^^ 2 ^ 2 := by decide

/-- The operand `~(0x10)` as a 32-bit unsigned value. -/
theorem mask_not16 : toUInt32 (~~~ 0x10) = (2 ^ 32 - 1) ^^^ 2 ^ 4 := by decide

/-- The operand `0x4` as a 32-bit unsigned value. -/
theorem mask_4 : toUInt32 0x4 = 2 ^ 2 := by decide

/-- The operand `0x10` as a 32-bit unsigned value. -/
theorem mask_16 : toUInt32 0x10 = 2 ^ 4 := by decide

/-- Bits of the register after `ODR |= 0x10`. -/
theorem testBit_orAssign_16 (odr i : Nat) :
    (orAssign odr 0x10).testBit i = (decide (i < 32) && (odr.testBit i || decide (i = 4))) := by
  unfold orAssign
  rw [show (4294967296 : Nat) = 2 ^ 32 from rfl, Nat.testBit_mod_two_pow, Nat.testBit_lor,
    mask_16, Nat.testBit_two_pow]
  by_cases h : i = 4
  · subst h; simp
  · simp [h, Ne.symm h]

/-- Bits of the register after `ODR |= 0x4`. -/
theorem testBit_orAssign_4 (odr i : Nat) :
    (orAssign odr 0x4).testBit i = (decide (i < 32) && (odr.testBit i || decide (i = 2))) := by
  unfold orAssign
  rw [show (4294967296 : Nat) = 2 ^ 32 from rfl, Nat.testBit_mod_two_pow, Nat.testBit_lor,
    mask_4, Nat.testBit_two_pow]
  by_cases h : i = 2
  · subst h; simp
  · simp [h, Ne.symm h]

/-- Bits of the register after `ODR &= ~(0x4)`. -/
theorem testBit_andAssign_not4 (odr i : Nat) :
    (andAssign odr (~~~ 0x4)).testBit i
      = (decide (i < 32) && (odr.testBit i && !decide (i = 2))) := by
  unfold andAssign
  rw [show (4294967296 : Nat) = 2 ^ 32 from rfl, Nat.testBit_mod_two_pow, Nat.testBit_land,
    mask_not4, Nat.testBit_xor, Nat.testBit_two_pow_sub_one, Nat.testBit_two_pow]
  by_cases h : i = 2
  · subst h; simp
  · by_cases h32 : i < 32 <;> simp [h, Ne.symm h, h32]

/-- Bits of the register after `ODR &= ~(0x10)`. -/
theorem testBit_andAssign_not16 (odr i : Nat) :
    (andAssign odr (~~~ 0x10)).testBit i
      = (decide (i < 32) && (odr.testBit i && !decide (i = 4))) := by
  unfold andAssign
  rw [show (4294967296 : Nat) = 2 ^ 32 from rfl, Nat.testBit_mod_two_pow, Nat.testBit_land,
    mask_not16, Nat.testBit_xor, Nat.testBit_two_pow_sub_one, Nat.testBit_two_pow]
  by_cases h : i = 4
  · subst h; simp
  · by_cases h32 : i < 32 <;> simp [h, Ne.symm h, h32]

/-- A 32-bit value has no bit set from position 32 on. -/
theorem testBit_of_lt_two_pow_32 {odr i : Nat} (h : odr < 2 ^ 32) (hi : ¬ i < 32) :
    odr.testBit i = false := by
  apply Nat.testBit_lt_two_pow
  calc odr < 2 ^ 32 := h
    _ ≤ 2 ^ i := Nat.pow_le_pow_right (by norm_num) (by omega)

/-! ## One loop iteration, by branch -/

/-- The iteration for a sample `d ≤ 3`. -/
theorem loopBody_active {s : State} {raw d : Int}
    (h : distanceSample raw s.overhead_timer_delay = some d) (hd : d ≤ 3) :
    loopBody s raw = some
      ({ s with
          odr := orAssign (andAssign (andAssign (orAssign s.odr 0x10) (~~~ 0x4)) (~~~ 0x10)) 0x4,
          distance_measured := d },
        pingEvents ++ [Event.odrWrite (orAssign s.odr 0x10),
          Event.odrWrite (andAssign (orAssign s.odr 0x10) (~~~ 0x4)),
          Event.printf d,
          Event.odrWrite (andAssign (andAssign (orAssign s.odr 0x10) (~~~ 0x4)) (~~~ 0x10)),
          Event.odrWrite
            (orAssign (andAssign (andAssign (orAssign s.odr 0x10) (~~~ 0x4)) (~~~ 0x10)) 0x4)]
          ++ servoSweep) := by
  unfold loopBody
  rw [h]
  simp only [if_pos hd]

/-- The iteration for a sample `d > 3`. -/
theorem loopBody_idle {s : State} {raw d : Int}
    (h : distanceSample raw s.overhead_timer_delay = some d) (hd : ¬ d ≤ 3) :
    loopBody s raw = some
      ({ s with odr := andAssign (orAssign s.odr 0x10) (~~~ 0x4), distance_measured := d },
        pingEvents ++ [Event.odrWrite (orAssign s.odr 0x10),
          Event.odrWrite (andAssign (orAssign s.odr 0x10) (~~~ 0x4))]) := by
  unfold loopBody
  rw [h]
  simp only [if_neg hd]

/-- Green is on after the four writes of an Active iteration. -/
theorem green_after_active (odr : Nat) :
    greenOn (orAssign (andAssign (andAssign (orAssign odr 0x10) (~~~ 0x4)) (~~~ 0x10)) 0x4)
      = true := by
  simp [greenOn, testBit_orAssign_4]

/-- Red is off after the four writes of an Active iteration. -/
theorem red_after_active (odr : Nat) :
    redOn (orAssign (andAssign (andAssign (orAssign odr 0x10) (~~~ 0x4)) (~~~ 0x10)) 0x4)
      = false := by
  simp [redOn, testBit_orAssign_4, testBit_andAssign_not16]

/-- Red is on after the two writes of lines 102-103. -/
theorem red_after_idle (odr : Nat) :
    redOn (andAssign (orAssign odr 0x10) (~~~ 0x4)) = true := by
  simp [redOn, testBit_andAssign_not4, testBit_orAssign_16]

/-- Green is off after the two writes of lines 102-103. -/
theorem green_after_idle (odr : Nat) :
    greenOn (andAssign (orAssign odr 0x10) (~~~ 0x4)) = false := by
  simp [greenOn, testBit_andAssign_not4]

/-- The truncated quotient by 148 is at most 3 exactly up to 591. -/
theorem tdiv_148_le_three (d : Int) : Int.tdiv d 148 ≤ 3 ↔ d ≤ 591 := by
  have ht := tdiv_eq_ite d 148 (by norm_num)
  split_ifs at ht with h <;> omega


/-! ## Concrete readings -/

/-- Reading 444, offset 0: sample 3. -/
theorem distanceSample_444 : distanceSample 444 0 = some 3 := by
  rw [distanceSample_eq_tdiv (by decide) (by decide)]
  rfl

/-- Reading 445, offset 0: sample 3. -/
theorem distanceSample_445 : distanceSample 445 0 = some 3 := by
  rw [distanceSample_eq_tdiv (by decide) (by decide)]
  rfl

/-- Reading 600, offset 0: sample 4. -/
theorem distanceSample_600 : distanceSample 600 0 = some 4 := by
  rw [distanceSample_eq_tdiv (by decide) (by decide)]
  rfl

/-! ## The claims -/

/-- C1: whenever the loop computes an integer sample `d` (the value stored in
`distance_measured`), the iteration ends with the green indicator on and the servo sweep as its
last actions if and only if `d ≤ 3`, so `d = 3` is Active; and the timer reading 444 with
offset 0 gives the sample 3 and the Active branch, from every register content. -/
theorem C1_active_iff_sample_le_three (s : State) (raw d : Int)
    (h : distanceSample raw s.overhead_timer_delay = some d) :
    (∃ s' tr, loopBody s raw = some (s', tr) ∧ s'.distance_measured = d ∧
      ((greenOn s'.odr = true ∧ servoSweep <:+ tr) ↔ d ≤ 3)) ∧
    (distanceSample 444 0 = some 3 ∧
      ∀ (odr : Nat) (dm : Int), ∃ s' tr, loopBody ⟨odr, dm, 0⟩ 444 = some (s', tr) ∧
        s'.distance_measured = 3 ∧ greenOn s'.odr = true ∧ servoSweep <:+ tr) := by
  refine ⟨?_, distanceSample_444, ?_⟩
  · by_cases hd : d ≤ 3
    · refine ⟨_, _, loopBody_active h hd, rfl, ?_⟩
      exact iff_of_true ⟨green_after_active _, List.suffix_append _ _⟩ hd
    · refine ⟨_, _, loopBody_idle h hd, rfl, ?_⟩
      refine iff_of_false ?_ hd
      rintro ⟨hg, -⟩
      rw [green_after_idle] at hg
      exact Bool.false_ne_true hg
  · intro odr dm
    exact ⟨_, _, loopBody_active (s := ⟨odr, dm, 0⟩) distanceSample_444 (by decide), rfl,
      green_after_active _, List.suffix_append _ _⟩

/-- Witness of C1 at the reading 1000 with offset 10, whose sample is 6. -/
theorem C1_active_iff_sample_le_three_witness :
    distanceSample 1000 (State.mk 0 0 10).overhead_timer_delay = some 6 ∧
    ((∃ s' tr, loopBody (State.mk 0 0 10) 1000 = some (s', tr) ∧ s'.distance_measured = 6 ∧
      ((greenOn s'.odr = true ∧ servoSweep <:+ tr) ↔ (6 : Int) ≤ 3)) ∧
    (distanceSample 444 0 = some 3 ∧
      ∀ (odr : Nat) (dm : Int), ∃ s' tr, loopBody ⟨odr, dm, 0⟩ 444 = some (s', tr) ∧
        s'.distance_measured = 3 ∧ greenOn s'.odr = true ∧ servoSweep <:+ tr)) :=
  have h : distanceSample 1000 (State.mk 0 0 10).overhead_timer_delay = some 6 := by
    show distanceSample 1000 10 = some 6
    rw [distanceSample_eq_tdiv (by decide) (by decide)]
    rfl
  ⟨h, C1_active_iff_sample_le_three (State.mk 0 0 10) 1000 6 h⟩

/-- C2, evaluated at the reading 445 with offset 0: the calibrated distance 445/148 is more than
3 inches, yet the stored sample is 3 and the iteration is Active: green on, red off, and the
servo sweep runs, from every register content. -/
theorem C2_dispenses_at_445 (odr : Nat) (dm : Int) :
    (3 : ℚ) < ((445 : ℚ) - 0) / 148 ∧
    ∃ s' tr, loopBody ⟨odr, dm, 0⟩ 445 = some (s', tr) ∧ s'.distance_measured = 3 ∧
      greenOn s'.odr = true ∧ redOn s'.odr = false ∧ servoSweep <:+ tr := by
  refine ⟨by norm_num, _, _, loopBody_active (s := ⟨odr, dm, 0⟩) distanceSample_445 (by decide),
    rfl, green_after_active _, red_after_active _, List.suffix_append _ _⟩

/-- C3 as stated fails: at the reading 445 with offset 0 the sample is 3, which is not
445/148. -/
theorem C3_sample_not_exact_at_445 :
    distanceSample 445 0 = some 3 ∧ ((3 : Int) : ℚ) ≠ (((445 : Int) : ℚ) - ((0 : Int) : ℚ)) / 148 := by
  refine ⟨distanceSample_445, ?_⟩
  norm_num

/-- C3, amended: for every timer reading and offset whose difference fits the `int` type, the
sample of one measurement pass is `(raw - offset) / 148` truncated toward zero, and it equals the
quotient itself exactly when 148 divides `raw - offset`. -/
theorem C3_sample_is_truncated_quotient (raw offset : Int)
    (h1 : INT_MIN ≤ raw - offset) (h2 : raw - offset ≤ INT_MAX) :
    distanceSample raw offset = some (Int.tdiv (raw - offset) 148) ∧
    (((Int.tdiv (raw - offset) 148 : Int) : ℚ) = ((raw : ℚ) - (offset : ℚ)) / 148
      ↔ (148 : Int) ∣ raw - offset) := by
  refine ⟨distanceSample_eq_tdiv h1 h2, ?_⟩
  have hdm := Int.tdiv_add_tmod (raw - offset) 148
  rw [Int.dvd_iff_tmod_eq_zero]
  constructor
  · intro hq
    have hq' : (((raw - offset : Int)) : ℚ) = 148 * ((Int.tdiv (raw - offset) 148 : Int) : ℚ) := by
      rw [hq]; push_cast; field_simp
    have : raw - offset = 148 * Int.tdiv (raw - offset) 148 := by exact_mod_cast hq'
    omega
  · intro hr
    have : raw - offset = 148 * Int.tdiv (raw - offset) 148 := by omega
    have hq' : (((raw - offset : Int)) : ℚ) = 148 * ((Int.tdiv (raw - offset) 148 : Int) : ℚ) := by
      exact_mod_cast this
    push_cast at hq'
    rw [hq']; field_simp

/-- Witness of the amended C3 at the reading 445 with offset 0. -/
theorem C3_sample_is_truncated_quotient_witness :
    (INT_MIN ≤ 445 - 0 ∧ (445 : Int) - 0 ≤ INT_MAX) ∧
    (distanceSample 445 0 = some (Int.tdiv (445 - 0) 148) ∧
    (((Int.tdiv (445 - 0) 148 : Int) : ℚ) = (((445 : Int) : ℚ) - ((0 : Int) : ℚ)) / 148
      ↔ (148 : Int) ∣ 445 - 0)) :=
  ⟨⟨by decide, by decide⟩, C3_sample_is_truncated_quotient 445 0 (by decide) (by decide)⟩

/-- C4: for every register content and every sample `d`, the iteration ends with the register
holding the value of its last write, in which exactly one of the red bit (0x10) and the green bit
(0x4) is set: green and not red when `d ≤ 3` (Active), red and not green otherwise (Idle). -/
theorem C4_final_indicator_exactly_one (s : State) (raw d : Int)
    (h : distanceSample raw s.overhead_timer_delay = some d) :
    ∃ s' tr, loopBody s raw = some (s', tr) ∧
      (odrValues tr).getLast? = some s'.odr ∧
      (redOn s'.odr != greenOn s'.odr) = true ∧
      (d ≤ 3 → greenOn s'.odr = true ∧ redOn s'.odr = false) ∧
      (¬ d ≤ 3 → redOn s'.odr = true ∧ greenOn s'.odr = false) := by
  by_cases hd : d ≤ 3
  · refine ⟨_, _, loopBody_active h hd, ?_, ?_, fun _ => ⟨green_after_active _, red_after_active _⟩,
      fun hn => absurd hd hn⟩
    · rw [servoSweep_eq]
      simp [odrValues, pingEvents]
    · show (redOn _ != greenOn _) = true
      rw [green_after_active, red_after_active]
      rfl
  · refine ⟨_, _, loopBody_idle h hd, ?_, ?_, fun hn => absurd hn hd,
      fun _ => ⟨red_after_idle _, green_after_idle _⟩⟩
    · simp [odrValues, pingEvents]
    · show (redOn _ != greenOn _) = true
      rw [green_after_idle, red_after_idle]
      rfl

/-- Witness of C4 at the reading 600 with offset 0 (sample 4, Idle), both indicator bits set
beforehand. -/
theorem C4_final_indicator_exactly_one_witness :
    distanceSample 600 (State.mk 0x14 0 0).overhead_timer_delay = some 4 ∧
    ∃ s' tr, loopBody (State.mk 0x14 0 0) 600 = some (s', tr) ∧
      (odrValues tr).getLast? = some s'.odr ∧
      (redOn s'.odr != greenOn s'.odr) = true ∧
      ((4 : Int) ≤ 3 → greenOn s'.odr = true ∧ redOn s'.odr = false) ∧
      (¬ (4 : Int) ≤ 3 → redOn s'.odr = true ∧ greenOn s'.odr = false) :=
  ⟨distanceSample_600, C4_final_indicator_exactly_one (State.mk 0x14 0 0) 600 4 distanceSample_600⟩

/-- C5 as stated fails: the sweep is not the sequence of pulse widths and holds alone, because it
starts with the period write `period_ms(20)` of line 115. -/
theorem C5_sweep_not_only_pulses_and_holds :
    servoSweep ≠
      [Event.pulsewidth_us 2500, Event.wait_us 500000,
       Event.pulsewidth_us 500, Event.wait_us 500000,
       Event.pulsewidth_us 500, Event.wait_us 500000,
       Event.pulsewidth_us 2500, Event.wait_us 500000,
       Event.wait_us 1000000] := by
  rw [servoSweep_eq]
  decide

/-- C5, amended: one run of the servo sweep terminates and issues one period write of 20 ms
followed by exactly: pulse widths 2500 then 500 (forward half, two steps, strictly decreasing),
then 500 then 2500 (reverse half, two steps, strictly increasing, ending at the start value),
each followed by a hold of 500000 us, then one hold of 1000000 us; the holds add up to
3000000 us. -/
theorem C5_sweep_command_sequence :
    servoSweep =
      [Event.period_ms 20,
       Event.pulsewidth_us 2500, Event.wait_us 500000,
       Event.pulsewidth_us 500, Event.wait_us 500000,
       Event.pulsewidth_us 500, Event.wait_us 500000,
       Event.pulsewidth_us 2500, Event.wait_us 500000,
       Event.wait_us 1000000] ∧
    pulseWidths (forwardSweep 2500) = [2500, 500] ∧
    (pulseWidths (forwardSweep 2500)).Sorted (· > ·) ∧
    pulseWidths (reverseSweep 500) = [500, 2500] ∧
    (pulseWidths (reverseSweep 500)).Sorted (· < ·) ∧
    waits (forwardSweep 2500) = [500000, 500000] ∧
    waits (reverseSweep 500) = [500000, 500000] ∧
    waits servoSweep = [500000, 500000, 500000, 500000, 1000000] ∧
    (waits servoSweep).sum = 3000000 := by
  rw [servoSweep_eq, forwardSweep_eq, reverseSweep_eq]
  refine ⟨rfl, rfl, ?_, rfl, ?_, rfl, rfl, rfl, rfl⟩
  · simp [pulseWidths]
  · simp [pulseWidths]

/-- C7 as stated fails: in two consecutive Active iterations (reading 444, offset 0, register
initially 0) the values written to the register are 16, 16, 0, 4, 20, 16, 0, 4; the value 20 has
both the red and the green bit set and the value 0 has neither. -/
theorem C7_both_and_neither_occur :
    ∃ s' tr, runLoop ⟨0, 0, 0⟩ [444, 444] = some (s', tr) ∧
      odrValues tr = [16, 16, 0, 4, 20, 16, 0, 4] ∧
      (∃ v ∈ odrValues tr, redOn v = true ∧ greenOn v = true) ∧
      (∃ v ∈ odrValues tr, redOn v = false ∧ greenOn v = false) := by
  have hrun : runLoop ⟨0, 0, 0⟩ [444, 444] = some (⟨4, 3, 0⟩,
      (pingEvents ++ [Event.odrWrite 16, Event.odrWrite 16, Event.printf 3,
          Event.odrWrite 0, Event.odrWrite 4] ++ servoSweep) ++
      ((pingEvents ++ [Event.odrWrite 20, Event.odrWrite 16, Event.printf 3,
          Event.odrWrite 0, Event.odrWrite 4] ++ servoSweep) ++ [])) := by
    have h1 : loopBody ⟨0, 0, 0⟩ 444 = some (⟨4, 3, 0⟩,
        pingEvents ++ [Event.odrWrite 16, Event.odrWrite 16, Event.printf 3,
          Event.odrWrite 0, Event.odrWrite 4] ++ servoSweep) :=
      loopBody_active (s := ⟨0, 0, 0⟩) distanceSample_444 (by decide)
    have h2 : loopBody ⟨4, 3, 0⟩ 444 = some (⟨4, 3, 0⟩,
        pingEvents ++ [Event.odrWrite 20, Event.odrWrite 16, Event.printf 3,
          Event.odrWrite 0, Event.odrWrite 4] ++ servoSweep) :=
      loopBody_active (s := ⟨4, 3, 0⟩) distanceSample_444 (by decide)
    simp only [runLoop, h1, h2]
  have hvals : odrValues ((pingEvents ++ [Event.odrWrite 16, Event.odrWrite 16, Event.printf 3,
          Event.odrWrite 0, Event.odrWrite 4] ++ servoSweep) ++
      ((pingEvents ++ [Event.odrWrite 20, Event.odrWrite 16, Event.printf 3,
          Event.odrWrite 0, Event.odrWrite 4] ++ servoSweep) ++ []))
      = [16, 16, 0, 4, 20, 16, 0, 4] := by
    rw [servoSweep_eq]
    rfl
  refine ⟨_, _, hrun, hvals, ?_, ?_⟩
  · rw [hvals]
    exact ⟨20, by decide, by decide, by decide⟩
  · rw [hvals]
    exact ⟨0, by decide, by decide, by decide⟩

/-- C7, amended: in every iteration the register is written two times (Idle) or four times
(Active).  After the first write the red bit is set and the green bit has the value it had
before the iteration; after the second write red is set and green is clear; in an Active
iteration neither bit is set after the third write, and after the fourth write green is set and
red is clear.  So exactly one bit is set after the second and after the fourth write. -/
theorem C7_indicator_write_sequence (s : State) (raw d : Int)
    (h : distanceSample raw s.overhead_timer_delay = some d) :
    ∃ s' tr v1 v2, loopBody s raw = some (s', tr) ∧
      (redOn v1 = true ∧ greenOn v1 = greenOn s.odr) ∧
      (redOn v2 = true ∧ greenOn v2 = false) ∧
      (¬ d ≤ 3 → odrValues tr = [v1, v2]) ∧
      (d ≤ 3 → ∃ v3 v4, odrValues tr = [v1, v2, v3, v4] ∧
        (redOn v3 = false ∧ greenOn v3 = false) ∧
        (redOn v4 = false ∧ greenOn v4 = true)) := by
  have hv1 : redOn (orAssign s.odr 0x10) = true ∧
      greenOn (orAssign s.odr 0x10) = greenOn s.odr := by
    constructor
    · simp [redOn, testBit_orAssign_16]
    · simp [greenOn, testBit_orAssign_16]
  by_cases hd : d ≤ 3
  · refine ⟨_, _, orAssign s.odr 0x10, andAssign (orAssign s.odr 0x10) (~~~ 0x4),
      loopBody_active h hd, hv1, ⟨red_after_idle _, green_after_idle _⟩,
      fun hn => absurd hd hn, fun _ =>
        ⟨andAssign (andAssign (orAssign s.odr 0x10) (~~~ 0x4)) (~~~ 0x10),
          orAssign (andAssign (andAssign (orAssign s.odr 0x10) (~~~ 0x4)) (~~~ 0x10)) 0x4,
          ?_, ⟨?_, ?_⟩, ⟨red_after_active _, green_after_active _⟩⟩⟩
    · rw [servoSweep_eq]
      rfl
    · simp [redOn, testBit_andAssign_not16]
    · simp [greenOn, testBit_andAssign_not16, testBit_andAssign_not4]
  · refine ⟨_, _, orAssign s.odr 0x10, andAssign (orAssign s.odr 0x10) (~~~ 0x4),
      loopBody_idle h hd, hv1, ⟨red_after_idle _, green_after_idle _⟩,
      fun _ => rfl, fun hn => absurd hn hd⟩

/-- Witness of the amended C7 at the reading 444 with offset 0 and the register left by an
Active iteration (green on, red off). -/
theorem C7_indicator_write_sequence_witness :
    distanceSample 444 (State.mk 4 3 0).overhead_timer_delay = some 3 ∧
    ∃ s' tr v1 v2, loopBody (State.mk 4 3 0) 444 = some (s', tr) ∧
      (redOn v1 = true ∧ greenOn v1 = greenOn (State.mk 4 3 0).odr) ∧
      (redOn v2 = true ∧ greenOn v2 = false) ∧
      (¬ (3 : Int) ≤ 3 → odrValues tr = [v1, v2]) ∧
      ((3 : Int) ≤ 3 → ∃ v3 v4, odrValues tr = [v1, v2, v3, v4] ∧
        (redOn v3 = false ∧ greenOn v3 = false) ∧
        (redOn v4 = false ∧ greenOn v4 = true)) :=
  ⟨distanceSample_444, C7_indicator_write_sequence (State.mk 4 3 0) 444 3 distanceSample_444⟩

/-- C8: every iteration first drives the indicators to Idle (red on, green off).  An iteration
whose sample is Active (`d ≤ 3`) then switches them to Active and runs the whole servo sweep,
once, as its last actions: its servo commands are those of one sweep and its delays are the
10 us trigger pulse followed by the holds of one sweep.  An iteration whose sample is Idle issues
no servo command, and its only delay is the 10 us trigger pulse.  The next iteration, with its
next sample, starts only after these actions. -/
theorem C8_sweep_once_per_active_iteration (s : State) (raw d : Int)
    (h : distanceSample raw s.overhead_timer_delay = some d) :
    ∃ s' tr v1 v2, loopBody s raw = some (s', tr) ∧
      (redOn v2 = true ∧ greenOn v2 = false) ∧
      (d ≤ 3 → (∃ v3 v4, tr = pingEvents ++ [Event.odrWrite v1, Event.odrWrite v2,
            Event.printf d, Event.odrWrite v3, Event.odrWrite v4] ++ servoSweep ∧
          redOn v4 = false ∧ greenOn v4 = true) ∧
        tr.filter isServoCommand =
          [Event.period_ms 20, Event.pulsewidth_us 2500, Event.pulsewidth_us 500,
           Event.pulsewidth_us 500, Event.pulsewidth_us 2500] ∧
        waits tr = 10 :: waits servoSweep) ∧
      (¬ d ≤ 3 → tr = pingEvents ++ [Event.odrWrite v1, Event.odrWrite v2] ∧
        tr.filter isServoCommand = [] ∧ waits tr = [10]) ∧
      (∀ rest, runLoop s (raw :: rest) =
        (runLoop s' rest).map (fun r => (r.1, tr ++ r.2))) := by
  have hrun : ∀ (s' : State) (tr : List Event), loopBody s raw = some (s', tr) →
      ∀ rest, runLoop s (raw :: rest) = (runLoop s' rest).map (fun r => (r.1, tr ++ r.2)) := by
    intro s' tr hb rest
    simp only [runLoop, hb]
    cases runLoop s' rest with
    | none => rfl
    | some r => rfl
  by_cases hd : d ≤ 3
  · refine ⟨_, _, orAssign s.odr 0x10, andAssign (orAssign s.odr 0x10) (~~~ 0x4),
      loopBody_active h hd, ⟨red_after_idle _, green_after_idle _⟩, fun _ => ⟨?_, ?_, ?_⟩,
      fun hn => absurd hd hn, hrun _ _ (loopBody_active h hd)⟩
    · exact ⟨_, _, rfl, red_after_active _, green_after_active _⟩
    · rw [servoSweep_eq]
      rfl
    · rw [servoSweep_eq]
      rfl
  · refine ⟨_, _, orAssign s.odr 0x10, andAssign (orAssign s.odr 0x10) (~~~ 0x4),
      loopBody_idle h hd, ⟨red_after_idle _, green_after_idle _⟩, fun hn => absurd hn hd,
      fun _ => ⟨rfl, rfl, rfl⟩, hrun _ _ (loopBody_idle h hd)⟩

/-- Witness of C8 at the reading 300 with offset 4, whose sample is 2 (Active). -/
theorem C8_sweep_once_per_active_iteration_witness :
    distanceSample 300 (State.mk 16 7 4).overhead_timer_delay = some 2 ∧
    ∃ s' tr v1 v2, loopBody (State.mk 16 7 4) 300 = some (s', tr) ∧
      (redOn v2 = true ∧ greenOn v2 = false) ∧
      ((2 : Int) ≤ 3 → (∃ v3 v4, tr = pingEvents ++ [Event.odrWrite v1, Event.odrWrite v2,
            Event.printf 2, Event.odrWrite v3, Event.odrWrite v4] ++ servoSweep ∧
          redOn v4 = false ∧ greenOn v4 = true) ∧
        tr.filter isServoCommand =
          [Event.period_ms 20, Event.pulsewidth_us 2500, Event.pulsewidth_us 500,
           Event.pulsewidth_us 500, Event.pulsewidth_us 2500] ∧
        waits tr = 10 :: waits servoSweep) ∧
      (¬ (2 : Int) ≤ 3 → tr = pingEvents ++ [Event.odrWrite v1, Event.odrWrite v2] ∧
        tr.filter isServoCommand = [] ∧ waits tr = [10]) ∧
      (∀ rest, runLoop (State.mk 16 7 4) (300 :: rest) =
        (runLoop s' rest).map (fun r => (r.1, tr ++ r.2))) :=
  have h : distanceSample 300 (State.mk 16 7 4).overhead_timer_delay = some 2 := by
    show distanceSample 300 4 = some 2
    rw [distanceSample_eq_tdiv (by decide) (by decide)]
    rfl
  ⟨h, C8_sweep_once_per_active_iteration (State.mk 16 7 4) 300 2 h⟩

/-- C9: for non-negative 32-bit timer readings `raw` and offsets, the subtraction
`raw - offset` does not overflow, the stored sample is `(raw - offset) / 148` truncated toward
zero, the iteration is Active (green on, sweep run) if and only if `raw - offset ≤ 591`, and
every reading below the offset is Active and runs the sweep. -/
theorem C9_nonneg_readings_active_iff_le_591 (s : State) (raw : Int)
    (hraw0 : 0 ≤ raw) (hraw1 : raw ≤ INT_MAX)
    (hoff0 : 0 ≤ s.overhead_timer_delay) (hoff1 : s.overhead_timer_delay ≤ INT_MAX) :
    subInt raw s.overhead_timer_delay = some (raw - s.overhead_timer_delay) ∧
    ∃ s' tr, loopBody s raw = some (s', tr) ∧
      s'.distance_measured = Int.tdiv (raw - s.overhead_timer_delay) 148 ∧
      ((greenOn s'.odr = true ∧ servoSweep <:+ tr) ↔ raw - s.overhead_timer_delay ≤ 591) ∧
      (raw < s.overhead_timer_delay → greenOn s'.odr = true ∧ servoSweep <:+ tr) := by
  have h1 : INT_MIN ≤ raw - s.overhead_timer_delay := by
    unfold INT_MIN; unfold INT_MAX at hoff1; omega
  have h2 : raw - s.overhead_timer_delay ≤ INT_MAX := by
    unfold INT_MAX at hraw1 ⊢; omega
  have hs := distanceSample_eq_tdiv h1 h2
  refine ⟨by simp only [subInt, h1, h2, and_self, if_true], ?_⟩
  by_cases hd : Int.tdiv (raw - s.overhead_timer_delay) 148 ≤ 3
  · have hact : greenOn (orAssign (andAssign (andAssign (orAssign s.odr 0x10) (~~~ 0x4))
          (~~~ 0x10)) 0x4) = true ∧
        servoSweep <:+ pingEvents ++ [Event.odrWrite (orAssign s.odr 0x10),
          Event.odrWrite (andAssign (orAssign s.odr 0x10) (~~~ 0x4)),
          Event.printf (Int.tdiv (raw - s.overhead_timer_delay) 148),
          Event.odrWrite (andAssign (andAssign (orAssign s.odr 0x10) (~~~ 0x4)) (~~~ 0x10)),
          Event.odrWrite
            (orAssign (andAssign (andAssign (orAssign s.odr 0x10) (~~~ 0x4)) (~~~ 0x10)) 0x4)]
          ++ servoSweep :=
      ⟨green_after_active _, List.suffix_append _ _⟩
    exact ⟨_, _, loopBody_active hs hd, rfl,
      iff_of_true hact ((tdiv_148_le_three _).1 hd), fun _ => hact⟩
  · have hidle : ¬ (greenOn (andAssign (orAssign s.odr 0x10) (~~~ 0x4)) = true ∧
        servoSweep <:+ pingEvents ++ [Event.odrWrite (orAssign s.odr 0x10),
          Event.odrWrite (andAssign (orAssign s.odr 0x10) (~~~ 0x4))]) := by
      rintro ⟨hg, -⟩
      rw [green_after_idle] at hg
      exact Bool.false_ne_true hg
    have hgt : ¬ raw - s.overhead_timer_delay ≤ 591 := fun hle => hd ((tdiv_148_le_three _).2 hle)
    refine ⟨_, _, loopBody_idle hs hd, rfl, iff_of_false hidle hgt, fun hlt => ?_⟩
    exact absurd (by omega : raw - s.overhead_timer_delay ≤ 591) hgt

/-- Witness of C9 at the reading 5 with offset 9 (a negative calibrated duration). -/
theorem C9_nonneg_readings_active_iff_le_591_witness :
    ((0 : Int) ≤ 5 ∧ (5 : Int) ≤ INT_MAX ∧ 0 ≤ (State.mk 16 0 9).overhead_timer_delay ∧
      (State.mk 16 0 9).overhead_timer_delay ≤ INT_MAX) ∧
    (subInt 5 (State.mk 16 0 9).overhead_timer_delay
        = some (5 - (State.mk 16 0 9).overhead_timer_delay) ∧
    ∃ s' tr, loopBody (State.mk 16 0 9) 5 = some (s', tr) ∧
      s'.distance_measured = Int.tdiv (5 - (State.mk 16 0 9).overhead_timer_delay) 148 ∧
      ((greenOn s'.odr = true ∧ servoSweep <:+ tr)
        ↔ 5 - (State.mk 16 0 9).overhead_timer_delay ≤ 591) ∧
      (5 < (State.mk 16 0 9).overhead_timer_delay →
        greenOn s'.odr = true ∧ servoSweep <:+ tr)) :=
  ⟨⟨by decide, by decide, by decide, by decide⟩,
    C9_nonneg_readings_active_iff_le_591 (State.mk 16 0 9) 5
      (by decide) (by decide) (by decide) (by decide)⟩

/-- C10: for every 32-bit register content and every sample, each value written to the register
during one iteration, and so the content after the iteration, agrees with the content before the
iteration on every bit other than bit 2 (0x4, green) and bit 4 (0x10, red). -/
theorem C10_indicator_writes_frame (s : State) (raw d : Int)
    (hodr : s.odr < 2 ^ 32)
    (h : distanceSample raw s.overhead_timer_delay = some d) :
    ∃ s' tr, loopBody s raw = some (s', tr) ∧
      ∀ i : Nat, i ≠ 2 → i ≠ 4 →
        s'.odr.testBit i = s.odr.testBit i ∧
        ∀ v ∈ odrValues tr, v.testBit i = s.odr.testBit i := by
  have hw1 : ∀ i : Nat, i ≠ 2 → i ≠ 4 →
      (orAssign s.odr 0x10).testBit i = s.odr.testBit i := by
    intro i _ h4
    rw [testBit_orAssign_16]
    by_cases h32 : i < 32
    · simp [h32, h4]
    · simp [h32, testBit_of_lt_two_pow_32 hodr h32]
  have hw2 : ∀ i : Nat, i ≠ 2 → i ≠ 4 →
      (andAssign (orAssign s.odr 0x10) (~~~ 0x4)).testBit i = s.odr.testBit i := by
    intro i h2 h4
    rw [testBit_andAssign_not4, hw1 i h2 h4]
    by_cases h32 : i < 32
    · simp [h32, h2]
    · simp [h32, testBit_of_lt_two_pow_32 hodr h32]
  have hw3 : ∀ i : Nat, i ≠ 2 → i ≠ 4 →
      (andAssign (andAssign (orAssign s.odr 0x10) (~~~ 0x4)) (~~~ 0x10)).testBit i
        = s.odr.testBit i := by
    intro i h2 h4
    rw [testBit_andAssign_not16, hw2 i h2 h4]
    by_cases h32 : i < 32
    · simp [h32, h4]
    · simp [h32, testBit_of_lt_two_pow_32 hodr h32]
  have hw4 : ∀ i : Nat, i ≠ 2 → i ≠ 4 →
      (orAssign (andAssign (andAssign (orAssign s.odr 0x10) (~~~ 0x4)) (~~~ 0x10)) 0x4).testBit i
        = s.odr.testBit i := by
    intro i h2 h4
    rw [testBit_orAssign_4, hw3 i h2 h4]
    by_cases h32 : i < 32
    · simp [h32, h2]
    · simp [h32, testBit_of_lt_two_pow_32 hodr h32]
  by_cases hd : d ≤ 3
  · refine ⟨_, _, loopBody_active h hd, fun i h2 h4 => ⟨hw4 i h2 h4, ?_⟩⟩
    intro v hv
    rw [servoSweep_eq] at hv
    simp only [pingEvents, odrValues, List.cons_append, List.nil_append, List.mem_cons,
      List.mem_nil_iff, or_false] at hv
    rcases hv with rfl | rfl | rfl | rfl
    · exact hw1 i h2 h4
    · exact hw2 i h2 h4
    · exact hw3 i h2 h4
    · exact hw4 i h2 h4
  · refine ⟨_, _, loopBody_idle h hd, fun i h2 h4 => ⟨hw2 i h2 h4, ?_⟩⟩
    intro v hv
    simp only [pingEvents, odrValues, List.cons_append, List.nil_append, List.mem_cons,
      List.mem_nil_iff, or_false] at hv
    rcases hv with rfl | rfl
    · exact hw1 i h2 h4
    · exact hw2 i h2 h4

/-- Witness of C10 at the register content 0xFFFFFFFF and the reading 444 with offset 0. -/
theorem C10_indicator_writes_frame_witness :
    ((State.mk 0xFFFFFFFF 0 0).odr < 2 ^ 32 ∧
      distanceSample 444 (State.mk 0xFFFFFFFF 0 0).overhead_timer_delay = some 3) ∧
    ∃ s' tr, loopBody (State.mk 0xFFFFFFFF 0 0) 444 = some (s', tr) ∧
      ∀ i : Nat, i ≠ 2 → i ≠ 4 →
        s'.odr.testBit i = (State.mk 0xFFFFFFFF 0 0).odr.testBit i ∧
        ∀ v ∈ odrValues tr, v.testBit i = (State.mk 0xFFFFFFFF 0 0).odr.testBit i :=
  ⟨⟨by decide, distanceSample_444⟩,
    C10_indicator_writes_frame (State.mk 0xFFFFFFFF 0 0) 444 3 (by decide) distanceSample_444⟩

end Dispenser
